import Mathlib

/-!
Verification of the Puyo Puyo game engine (src/app/page.tsx).

The TypeScript source is shallowly embedded: the grid is a total function
from in-range coordinates to cells, JS numbers used as indices are `Int`,
and the one fallible operation (`placePuyo`, which can index `newGrid[-1]`
and throw a TypeError) returns `Option`.
-/

set_option maxHeartbeats 1000000
set_option maxRecDepth 100000

/-- Colors of the palette; the TS type `PuyoColor` also admits `null`,
which is modelled by `Option PuyoColor` below. -/
inductive PuyoColor : Type
  | red
  | green
  | blue
  | yellow
deriving DecidableEq, Repr

/-- A grid cell: a color or empty (`null` in the source). -/
abbrev Cell := Option PuyoColor

/-- Constant `GRID_ROWS = 12` from the source. -/
abbrev GRID_ROWS : Nat := 12

/-- Constant `GRID_COLS = 6` from the source. -/
abbrev GRID_COLS : Nat := 6

/-- The grid `PuyoColor[][]`: 12 rows of 6 cells. -/
abbrev Grid := Fin GRID_ROWS → Fin GRID_COLS → Cell

instance : DecidableEq Grid :=
  inferInstanceAs (DecidableEq (Fin GRID_ROWS → Fin GRID_COLS → Cell))

/-- Helper `createEmptyGrid()`: every cell empty. -/
def createEmptyGrid : Grid := fun _ _ => none

/-- Reading `grid[y][x]` with JS `number` indices.  Every read in the
source is either guarded by a bounds check or has indices produced by an
in-range loop, so out-of-range reads (JS `undefined`) are mapped to `none`,
which is what those guarded comparisons observe. -/
def getCell (g : Grid) (y x : Int) : Cell :=
  if h : 0 ≤ y ∧ y < (GRID_ROWS : Int) ∧ 0 ≤ x ∧ x < (GRID_COLS : Int) then
    g ⟨y.toNat, by omega⟩ ⟨x.toNat, by omega⟩
  else none

/-- Writing `grid[y][x] = c` at indices that the surrounding loop keeps in
range (used by `applyGravity`); an out-of-range write is a no-op here and
never actually occurs at the call sites. -/
def setCell (g : Grid) (y x : Int) (c : Cell) : Grid :=
  if h : 0 ≤ y ∧ y < (GRID_ROWS : Int) ∧ 0 ≤ x ∧ x < (GRID_COLS : Int) then
    fun y' x' =>
      if y' = (⟨y.toNat, by omega⟩ : Fin GRID_ROWS) ∧ x' = (⟨x.toNat, by omega⟩ : Fin GRID_COLS) then c
      else g y' x'
  else g

/-- Writing `grid[y][x] = c` with unchecked indices, as `placePuyo` does.
If the row index is out of range, JS evaluates `undefined[x] = c` and
throws a TypeError: modelled as `none`.  If the row is in range but the
column is not, JS stores a property on the row array that no reader of
this program ever observes (all reads are bounds-guarded): modelled as an
unchanged grid. -/
def setCellUnchecked (g : Grid) (y x : Int) (c : Cell) : Option Grid :=
  if 0 ≤ y ∧ y < (GRID_ROWS : Int) then some (setCell g y x c)
  else none

/-- The falling pair `PuyoPair` from the source. -/
structure PuyoPair where
  color1 : Cell
  color2 : Cell
  x : Int
  y : Int
  rotation : Int
deriving DecidableEq, Repr

/-- Source `getSecondPuyoPosition(x, y, rotation)`. -/
def getSecondPuyoPosition (x y rotation : Int) : Int × Int :=
  if rotation = 0 then (x, y - 1)
  else if rotation = 1 then (x + 1, y)
  else if rotation = 2 then (x, y + 1)
  else if rotation = 3 then (x - 1, y)
  else (x, y)

/-- Source `isValidMove(puyo)`: bounds checks for both cells, in the JS
`&&` chain order, then emptiness of both cells. -/
def isValidMove (g : Grid) (puyo : PuyoPair) : Bool :=
  let x := puyo.x
  let y := puyo.y
  let p2 := getSecondPuyoPosition x y puyo.rotation
  decide (0 ≤ x) && decide (x < (GRID_COLS : Int)) &&
  decide (0 ≤ y) && decide (y < (GRID_ROWS : Int)) &&
  decide (0 ≤ p2.1) && decide (p2.1 < (GRID_COLS : Int)) &&
  decide (0 ≤ p2.2) && decide (p2.2 < (GRID_ROWS : Int)) &&
  (getCell g y x).isNone && (getCell g p2.2 p2.1).isNone

/-- Positions are `(x, y)` pairs of JS numbers, as in the string keys
of the source's visited sets. -/
abbrev Pos := Int × Int

/-- Position in grid bounds: `0 ≤ col < COLS`, `0 ≤ row < ROWS`. -/
def inB (p : Pos) : Prop :=
  0 ≤ p.1 ∧ p.1 < (GRID_COLS : Int) ∧ 0 ≤ p.2 ∧ p.2 < (GRID_ROWS : Int)

instance (p : Pos) : Decidable (inB p) := by unfold inB; infer_instance

/-- Cell of the grid at a position. -/
def cellAt (g : Grid) (p : Pos) : Cell := getCell g p.2 p.1

/-- Spec-side reading of legality (spec 4.2 / 8): both the anchor and the
computed second cell are in bounds and both cells of the grid are empty. -/
def legalMoveSpec (g : Grid) (p : PuyoPair) : Prop :=
  let s := getSecondPuyoPosition p.x p.y p.rotation
  inB (p.x, p.y) ∧ inB s ∧ cellAt g (p.x, p.y) = none ∧ cellAt g s = none

/-- Claim C1: for every grid and candidate piece with orientation in
{0,1,2,3}, `isValidMove` returns legal iff the anchor and the computed
second cell are in bounds and both those cells of the grid are empty. -/
theorem claim_C1_isValidMove_iff_legal (g : Grid) (p : PuyoPair)
    (h0 : 0 ≤ p.rotation) (h4 : p.rotation < 4) :
    isValidMove g p = true ↔ legalMoveSpec g p := by
  unfold isValidMove legalMoveSpec inB cellAt
  simp only [Bool.and_eq_true, decide_eq_true_eq, Option.isNone_iff_eq_none]
  tauto

/-- Witness for C1 at a concrete piece on the empty grid. -/
theorem claim_C1_witness :
    (0 : Int) ≤ 0 ∧ (0 : Int) < 4 ∧
      (isValidMove createEmptyGrid ⟨some PuyoColor.red, some PuyoColor.blue, 2, 5, 0⟩ = true ↔
        legalMoveSpec createEmptyGrid ⟨some PuyoColor.red, some PuyoColor.blue, 2, 5, 0⟩) :=
  ⟨by decide, by decide,
    claim_C1_isValidMove_iff_legal createEmptyGrid
      ⟨some PuyoColor.red, some PuyoColor.blue, 2, 5, 0⟩ (by decide) (by decide)⟩

/-- Finset of the 72 in-bounds positions. -/
def validCells : Finset Pos :=
  Finset.Icc (0 : Int) ((GRID_COLS : Int) - 1) ×ˢ Finset.Icc (0 : Int) ((GRID_ROWS : Int) - 1)

theorem mem_validCells {p : Pos} : p ∈ validCells ↔ inB p := by
  cases p with
  | mk x y =>
    simp only [validCells, Finset.mem_product, Finset.mem_Icc, inB]
    omega

/-- Recursion-depth bound for the flood fill: each non-returning call
inserts a fresh in-bounds cell into the visited set, of which there are at
most 72, so depth 73 is never exhausted (proved by the lemmas below, whose
fuel hypotheses are satisfied at the top-level call). -/
def FLOOD_FUEL : Nat := 73

/-- Source `findConnectedPuyos(grid, x, y, color, visited)`: guard in the
source's order (bounds, color mismatch, already visited), then visit the
cell and recurse through the four neighbours, threading the visited set. -/
def findConnectedAux (g : Grid) (color : Cell) :
    Nat → Int → Int → Finset Pos → Finset Pos
  | 0, _, _, visited => visited
  | fuel + 1, x, y, visited =>
    if x < 0 ∨ (GRID_COLS : Int) ≤ x ∨ y < 0 ∨ (GRID_ROWS : Int) ≤ y ∨
        getCell g y x ≠ color ∨ (x, y) ∈ visited then
      visited
    else
      let v1 := findConnectedAux g color fuel (x + 1) y (insert (x, y) visited)
      let v2 := findConnectedAux g color fuel (x - 1) y v1
      let v3 := findConnectedAux g color fuel x (y + 1) v2
      findConnectedAux g color fuel x (y - 1) v3

/-- Top-level call of `findConnectedPuyos`: fresh (empty) visited set, as
the source's default argument `visited = new Set()`. -/
def findConnectedPuyos (g : Grid) (x y : Int) (color : Cell) : Finset Pos :=
  findConnectedAux g color FLOOD_FUEL x y ∅

/-- A cell the flood fill will accept: in bounds and of the color searched. -/
def floodGood (g : Grid) (c : Cell) (p : Pos) : Prop := inB p ∧ cellAt g p = c

instance (g : Grid) (c : Cell) (p : Pos) : Decidable (floodGood g c p) := by
  unfold floodGood; infer_instance

/-- One 4-directional step between positions (no diagonals). -/
def adjStep (p q : Pos) : Prop :=
  q = (p.1 + 1, p.2) ∨ q = (p.1 - 1, p.2) ∨ q = (p.1, p.2 + 1) ∨ q = (p.1, p.2 - 1)

instance (p q : Pos) : Decidable (adjStep p q) := by unfold adjStep; infer_instance

theorem adjStep_symm {p q : Pos} (h : adjStep p q) : adjStep q p := by
  cases p with
  | mk a b =>
    cases q with
    | mk u v =>
      simp only [adjStep, Prod.mk.injEq] at h ⊢
      omega

/-- One step of the flood fill's search relation: both endpoints accepted
and 4-adjacent. -/
def floodAdj (g : Grid) (c : Cell) (p q : Pos) : Prop :=
  floodGood g c p ∧ floodGood g c q ∧ adjStep p q

/-- Reachability along flood-fill steps. -/
def floodReach (g : Grid) (c : Cell) (p q : Pos) : Prop :=
  Relation.ReflTransGen (floodAdj g c) p q

theorem floodReach_good {g : Grid} {c : Cell} {p q : Pos}
    (h : floodReach g c p q) (hp : floodGood g c p) : floodGood g c q := by
  induction h with
  | refl => exact hp
  | tail _ h2 _ => exact h2.2.1

theorem floodReach_extend {g : Grid} {c : Cell} {p n q : Pos}
    (hp : floodGood g c p) (hadj : adjStep p n)
    (hq : floodGood g c q) (hr : floodReach g c n q) : floodReach g c p q := by
  rcases (Relation.ReflTransGen.cases_head hr) with rfl | ⟨z, hstep, _⟩
  · exact Relation.ReflTransGen.single ⟨hp, hq, hadj⟩
  · exact Relation.ReflTransGen.head ⟨hp, hstep.1, hadj⟩ hr

theorem subset_findConnectedAux (g : Grid) (c : Cell) :
    ∀ (fuel : Nat) (x y : Int) (visited : Finset Pos),
      visited ⊆ findConnectedAux g c fuel x y visited := by
  intro fuel
  induction fuel with
  | zero => intro x y visited; exact subset_rfl
  | succ n ih =>
    intro x y visited
    unfold findConnectedAux
    split
    · exact subset_rfl
    · exact (((Finset.subset_insert _ _).trans (ih _ _ _)).trans
        ((ih _ _ _).trans ((ih _ _ _).trans (ih _ _ _))))

theorem findConnectedAux_sound (g : Grid) (c : Cell) :
    ∀ (fuel : Nat) (x y : Int) (visited : Finset Pos),
      ∀ p ∈ findConnectedAux g c fuel x y visited,
        p ∈ visited ∨ (floodGood g c p ∧ floodReach g c (x, y) p) := by
  intro fuel
  induction fuel with
  | zero => intro x y visited p hp; exact Or.inl hp
  | succ n ih =>
    intro x y visited p hp
    rw [findConnectedAux] at hp
    by_cases hguard : x < 0 ∨ (GRID_COLS : Int) ≤ x ∨ y < 0 ∨ (GRID_ROWS : Int) ≤ y ∨
        getCell g y x ≠ c ∨ (x, y) ∈ visited
    · rw [if_pos hguard] at hp; exact Or.inl hp
    · rw [if_neg hguard] at hp
      push_neg at hguard
      have hcur : floodGood g c (x, y) := by
        refine ⟨⟨by omega, by omega, by omega, by omega⟩, ?_⟩
        simpa [cellAt] using hguard.2.2.2.2.1
      -- peel the four nested recursive calls from the inside out
      rcases ih _ _ _ _ hp with hp3 | ⟨hgp, hrp⟩
      · rcases ih _ _ _ _ hp3 with hp2 | ⟨hgp, hrp⟩
        · rcases ih _ _ _ _ hp2 with hp1 | ⟨hgp, hrp⟩
          · rcases ih _ _ _ _ hp1 with hp0 | ⟨hgp, hrp⟩
            · rcases Finset.mem_insert.mp hp0 with rfl | hvis
              · exact Or.inr ⟨hcur, Relation.ReflTransGen.refl⟩
              · exact Or.inl hvis
            · exact Or.inr ⟨hgp, floodReach_extend hcur (Or.inl rfl) hgp hrp⟩
          · exact Or.inr ⟨hgp, floodReach_extend hcur (Or.inr (Or.inl rfl)) hgp hrp⟩
        · exact Or.inr ⟨hgp, floodReach_extend hcur (Or.inr (Or.inr (Or.inl rfl))) hgp hrp⟩
      · exact Or.inr ⟨hgp, floodReach_extend hcur (Or.inr (Or.inr (Or.inr rfl))) hgp hrp⟩

theorem findConnectedAux_start_mem (g : Grid) (c : Cell) (n : Nat) (x y : Int)
    (visited : Finset Pos) (hgood : floodGood g c (x, y)) :
    (x, y) ∈ findConnectedAux g c (n + 1) x y visited := by
  rw [findConnectedAux]
  by_cases hvis : (x, y) ∈ visited
  · rw [if_pos (by tauto)]; exact hvis
  · obtain ⟨⟨h1, h2, h3, h4⟩, hc⟩ := hgood
    rw [if_neg (by simp only [cellAt] at hc; push_neg; exact ⟨by omega, by omega, by omega, by omega, hc, hvis⟩)]
    have : (x, y) ∈ insert (x, y) visited := Finset.mem_insert_self _ _
    exact subset_findConnectedAux g c n _ _ _
      (subset_findConnectedAux g c n _ _ _
        (subset_findConnectedAux g c n _ _ _ (subset_findConnectedAux g c n _ _ _ this)))

theorem findConnectedAux_closed (g : Grid) (c : Cell) :
    ∀ (fuel : Nat) (x y : Int) (visited : Finset Pos),
      (validCells \ visited).card < fuel →
      ∀ p ∈ findConnectedAux g c fuel x y visited, p ∉ visited →
      ∀ q, floodGood g c q → adjStep p q →
      q ∈ findConnectedAux g c fuel x y visited := by
  intro fuel
  induction fuel with
  | zero => intro x y visited hcard; omega
  | succ n ih =>
    intro x y visited hcard p hp hpv q hq hadj
    by_cases hguard : x < 0 ∨ (GRID_COLS : Int) ≤ x ∨ y < 0 ∨ (GRID_ROWS : Int) ≤ y ∨
        getCell g y x ≠ c ∨ (x, y) ∈ visited
    · rw [findConnectedAux, if_pos hguard] at hp
      exact absurd hp hpv
    · have e : findConnectedAux g c (n + 1) x y visited =
          findConnectedAux g c n x (y - 1)
            (findConnectedAux g c n x (y + 1)
              (findConnectedAux g c n (x - 1) y
                (findConnectedAux g c n (x + 1) y (insert (x, y) visited)))) := by
        rw [findConnectedAux, if_neg hguard]
      push_neg at hguard
      obtain ⟨hx0, hx6, hy0, hy12, hcell, hvis⟩ := hguard
      have hcurv : (x, y) ∈ validCells :=
        mem_validCells.mpr ⟨by omega, by omega, by omega, by omega⟩
      have hstep1 : (validCells \ insert (x, y) visited).card < n := by
        have he : validCells \ insert (x, y) visited = (validCells \ visited).erase (x, y) := by
          ext r
          simp only [Finset.mem_sdiff, Finset.mem_erase, Finset.mem_insert]
          tauto
        have hmem : (x, y) ∈ validCells \ visited := Finset.mem_sdiff.mpr ⟨hcurv, hvis⟩
        have hpos : 0 < (validCells \ visited).card := Finset.card_pos.mpr ⟨_, hmem⟩
        rw [he, Finset.card_erase_of_mem hmem]
        omega
      obtain ⟨m, rfl⟩ : ∃ m, n = m + 1 := ⟨n - 1, by omega⟩
      rw [e] at hp ⊢
      have hsub1 : insert (x, y) visited ⊆
          findConnectedAux g c (m + 1) (x + 1) y (insert (x, y) visited) :=
        subset_findConnectedAux g c _ _ _ _
      have hcard1 : (validCells \
          findConnectedAux g c (m + 1) (x + 1) y (insert (x, y) visited)).card < m + 1 :=
        lt_of_le_of_lt (Finset.card_le_card (Finset.sdiff_subset_sdiff subset_rfl hsub1)) hstep1
      have hsub2 : findConnectedAux g c (m + 1) (x + 1) y (insert (x, y) visited) ⊆
          findConnectedAux g c (m + 1) (x - 1) y
            (findConnectedAux g c (m + 1) (x + 1) y (insert (x, y) visited)) :=
        subset_findConnectedAux g c _ _ _ _
      have hcard2 : (validCells \
          findConnectedAux g c (m + 1) (x - 1) y
            (findConnectedAux g c (m + 1) (x + 1) y (insert (x, y) visited))).card < m + 1 :=
        lt_of_le_of_lt (Finset.card_le_card (Finset.sdiff_subset_sdiff subset_rfl hsub2)) hcard1
      have hsub3 : findConnectedAux g c (m + 1) (x - 1) y
            (findConnectedAux g c (m + 1) (x + 1) y (insert (x, y) visited)) ⊆
          findConnectedAux g c (m + 1) x (y + 1)
            (findConnectedAux g c (m + 1) (x - 1) y
              (findConnectedAux g c (m + 1) (x + 1) y (insert (x, y) visited))) :=
        subset_findConnectedAux g c _ _ _ _
      have hcard3 : (validCells \
          findConnectedAux g c (m + 1) x (y + 1)
            (findConnectedAux g c (m + 1) (x - 1) y
              (findConnectedAux g c (m + 1) (x + 1) y (insert (x, y) visited)))).card < m + 1 :=
        lt_of_le_of_lt (Finset.card_le_card (Finset.sdiff_subset_sdiff subset_rfl hsub3)) hcard2
      have hsub4 : findConnectedAux g c (m + 1) x (y + 1)
            (findConnectedAux g c (m + 1) (x - 1) y
              (findConnectedAux g c (m + 1) (x + 1) y (insert (x, y) visited))) ⊆
          findConnectedAux g c (m + 1) x (y - 1)
            (findConnectedAux g c (m + 1) x (y + 1)
              (findConnectedAux g c (m + 1) (x - 1) y
                (findConnectedAux g c (m + 1) (x + 1) y (insert (x, y) visited)))) :=
        subset_findConnectedAux g c _ _ _ _
      by_cases h3 : p ∈ findConnectedAux g c (m + 1) x (y + 1)
          (findConnectedAux g c (m + 1) (x - 1) y
            (findConnectedAux g c (m + 1) (x + 1) y (insert (x, y) visited)))
      · by_cases h2 : p ∈ findConnectedAux g c (m + 1) (x - 1) y
            (findConnectedAux g c (m + 1) (x + 1) y (insert (x, y) visited))
        · by_cases h1 : p ∈ findConnectedAux g c (m + 1) (x + 1) y (insert (x, y) visited)
          · by_cases h0 : p ∈ insert (x, y) visited
            · -- p is the current cell: its accepted neighbours are starts of the four calls
              have hpxy : p = (x, y) := by
                rcases Finset.mem_insert.mp h0 with h | h
                · exact h
                · exact absurd h hpv
              subst hpxy
              rcases hadj with h | h | h | h
              · subst h
                exact hsub4 (hsub3 (hsub2 (findConnectedAux_start_mem g c m (x + 1) y _ hq)))
              · subst h
                exact hsub4 (hsub3 (findConnectedAux_start_mem g c m (x - 1) y _ hq))
              · subst h
                exact hsub4 (findConnectedAux_start_mem g c m x (y + 1) _ hq)
              · subst h
                exact findConnectedAux_start_mem g c m x (y - 1) _ hq
            · exact hsub4 (hsub3 (hsub2 (ih (x + 1) y (insert (x, y) visited) hstep1 p h1 h0 q hq hadj)))
          · exact hsub4 (hsub3 (ih (x - 1) y _ hcard1 p h2 h1 q hq hadj))
        · exact hsub4 (ih x (y + 1) _ hcard2 p h3 h2 q hq hadj)
      · exact ih x (y - 1) _ hcard3 p hp h3 q hq hadj

theorem validCells_card : validCells.card = 72 := by decide

/-- Full characterization of a top-level flood-fill call: it computes
exactly the set of positions reachable from the start through 4-adjacent
in-bounds cells of the searched color. -/
theorem findConnectedPuyos_mem_iff (g : Grid) (c : Cell) (x y : Int)
    (hgood : floodGood g c (x, y)) (p : Pos) :
    p ∈ findConnectedPuyos g x y c ↔ floodReach g c (x, y) p := by
  have hcard : (validCells \ (∅ : Finset Pos)).card < FLOOD_FUEL := by
    rw [Finset.sdiff_empty, validCells_card]; decide
  constructor
  · intro hp
    rcases findConnectedAux_sound g c FLOOD_FUEL x y ∅ p hp with h | ⟨_, hr⟩
    · exact absurd h (Finset.not_mem_empty p)
    · exact hr
  · intro hr
    induction hr with
    | refl => exact findConnectedAux_start_mem g c 72 x y ∅ hgood
    | tail hsb hbq ihmem =>
        exact findConnectedAux_closed g c FLOOD_FUEL x y ∅ hcard _ ihmem
          (Finset.not_mem_empty _) _ hbq.2.1 hbq.2.2

/-- Spec-side adjacency (spec 4.4 step 1): two in-bounds cells of the same
non-empty color, one 4-directional step apart. -/
def sameColorAdj (g : Grid) (p q : Pos) : Prop :=
  inB p ∧ inB q ∧ cellAt g p ≠ none ∧ cellAt g p = cellAt g q ∧ adjStep p q

/-- Spec-side connectivity: reflexive-transitive closure of `sameColorAdj`. -/
def connectedTo (g : Grid) (p q : Pos) : Prop :=
  Relation.ReflTransGen (sameColorAdj g) p q

/-- The connected same-color group of a cell, as the spec describes it. -/
def specGroup (g : Grid) (p : Pos) : Set Pos := {q | connectedTo g p q}

/-- Spec-side description of the cells a resolution pass clears: members of
4-directionally connected same-non-empty-color groups of size at least 4. -/
def specMatched (g : Grid) : Set Pos :=
  {p | inB p ∧ cellAt g p ≠ none ∧ 4 ≤ (specGroup g p).ncard}

theorem sameColorAdj_symm {g : Grid} {p q : Pos} (h : sameColorAdj g p q) :
    sameColorAdj g q p := by
  obtain ⟨hp, hq, hne, heq, hadj⟩ := h
  exact ⟨hq, hp, by rw [← heq]; exact hne, heq.symm, adjStep_symm hadj⟩

theorem connectedTo_symm {g : Grid} {p q : Pos} (h : connectedTo g p q) :
    connectedTo g q p :=
  Relation.ReflTransGen.symmetric (fun _ _ hab => sameColorAdj_symm hab) h

theorem floodReach_iff_connectedTo {g : Grid} {s : Pos} (hin : inB s)
    (hne : cellAt g s ≠ none) (q : Pos) :
    floodReach g (cellAt g s) s q ↔ connectedTo g s q := by
  constructor
  · intro h
    refine Relation.ReflTransGen.mono ?_ h
    intro a b hab
    obtain ⟨⟨ia, ca⟩, ⟨ib, cb⟩, hadj⟩ := hab
    exact ⟨ia, ib, by rw [ca]; exact hne, by rw [ca, cb], hadj⟩
  · intro h
    induction h with
    | refl => exact Relation.ReflTransGen.refl
    | tail hsb hbq ihr =>
        have hgb : floodGood g (cellAt g s) _ := floodReach_good ihr ⟨hin, rfl⟩
        refine Relation.ReflTransGen.tail ihr ⟨hgb, ⟨hbq.2.1, ?_⟩, hbq.2.2.2.2⟩
        rw [← hbq.2.2.2.1, hgb.2]

/-- A top-level flood fill started on a non-empty cell computes exactly the
spec-side connected group of that cell. -/
theorem findConnectedPuyos_coe (g : Grid) (s : Pos) (hin : inB s)
    (hne : cellAt g s ≠ none) :
    (findConnectedPuyos g s.1 s.2 (cellAt g s) : Set Pos) = specGroup g s := by
  ext q
  rw [Finset.mem_coe]
  have := findConnectedPuyos_mem_iff g (cellAt g s) s.1 s.2 ⟨hin, rfl⟩ q
  rw [this]
  exact floodReach_iff_connectedTo hin hne q

theorem findConnectedPuyos_card (g : Grid) (s : Pos) (hin : inB s)
    (hne : cellAt g s ≠ none) :
    (findConnectedPuyos g s.1 s.2 (cellAt g s)).card = (specGroup g s).ncard := by
  rw [← findConnectedPuyos_coe g s hin hne, Set.ncard_coe_Finset]

theorem foldl_union_shift {α β : Type} [DecidableEq β]
    (step : Finset β → α → Finset β) (contrib : α → Finset β)
    (hstep : ∀ acc a, step acc a = acc ∪ contrib a) :
    ∀ (l : List α) (s t : Finset β), l.foldl step (s ∪ t) = s ∪ l.foldl step t := by
  intro l
  induction l with
  | nil => intro s t; rfl
  | cons a tl ih =>
      intro s t
      rw [List.foldl_cons, hstep, Finset.union_assoc, ← hstep, List.foldl_cons, ih]

theorem foldl_union_init {α β : Type} [DecidableEq β]
    (step : Finset β → α → Finset β) (contrib : α → Finset β)
    (hstep : ∀ acc a, step acc a = acc ∪ contrib a) (l : List α) (acc : Finset β) :
    l.foldl step acc = acc ∪ l.foldl step ∅ := by
  conv_lhs => rw [← Finset.union_empty acc]
  exact foldl_union_shift step contrib hstep l acc ∅

theorem foldl_union_mem {α β : Type} [DecidableEq β]
    (step : Finset β → α → Finset β) (contrib : α → Finset β)
    (hstep : ∀ acc a, step acc a = acc ∪ contrib a) :
    ∀ (l : List α) (init : Finset β) (p : β),
      p ∈ l.foldl step init ↔ p ∈ init ∨ ∃ a ∈ l, p ∈ contrib a := by
  intro l
  induction l with
  | nil => intro init p; simp
  | cons a tl ih =>
      intro init p
      rw [List.foldl_cons, hstep, ih]
      simp only [Finset.mem_union, List.mem_cons]
      constructor
      · rintro ((h | h) | ⟨b, hb, hpb⟩)
        · exact Or.inl h
        · exact Or.inr ⟨a, Or.inl rfl, h⟩
        · exact Or.inr ⟨b, Or.inr hb, hpb⟩
      · rintro (h | ⟨b, rfl | hb, hpb⟩)
        · exact Or.inl (Or.inl h)
        · exact Or.inl (Or.inr hpb)
        · exact Or.inr ⟨b, hb, hpb⟩

/-- Body of the inner `for (x ...)` loop of the match scan in
`checkForMatches`: a non-empty cell's connected group is computed and, if
its size is at least 4, merged into the accumulated matched set. -/
def matchScanCell (g : Grid) (y : Nat) (acc : Finset Pos) (x : Nat) : Finset Pos :=
  if getCell g (y : Int) (x : Int) ≠ none then
    -- the source's local `matches`; `matches` is a Lean keyword, hence `found`
    let found := findConnectedPuyos g (x : Int) (y : Int) (getCell g (y : Int) (x : Int))
    if 4 ≤ found.card then acc ∪ found else acc
  else acc

/-- The inner loop over columns for a fixed row. -/
def matchScanRow (g : Grid) (acc : Finset Pos) (y : Nat) : Finset Pos :=
  (List.range GRID_COLS).foldl (matchScanCell g y) acc

/-- The matched set of one resolution pass (`matchedPuyos` in
`checkForMatches`): row-major scan over the whole grid, collecting every
qualifying group before anything is removed. -/
def matchedPuyos (g : Grid) : Finset Pos :=
  (List.range GRID_ROWS).foldl (matchScanRow g) ∅

/-- What one scanned cell contributes to the matched set. -/
def cellContrib (g : Grid) (y x : Nat) : Finset Pos :=
  if getCell g (y : Int) (x : Int) ≠ none then
    if 4 ≤ (findConnectedPuyos g (x : Int) (y : Int) (getCell g (y : Int) (x : Int))).card then
      findConnectedPuyos g (x : Int) (y : Int) (getCell g (y : Int) (x : Int))
    else ∅
  else ∅

theorem matchScanCell_eq (g : Grid) (y : Nat) (acc : Finset Pos) (x : Nat) :
    matchScanCell g y acc x = acc ∪ cellContrib g y x := by
  simp only [matchScanCell, cellContrib]
  split_ifs with h1 h2
  · rfl
  · rw [Finset.union_empty]
  · rw [Finset.union_empty]

theorem matchScanRow_eq (g : Grid) (acc : Finset Pos) (y : Nat) :
    matchScanRow g acc y = acc ∪ matchScanRow g ∅ y :=
  foldl_union_init (matchScanCell g y) (cellContrib g y) (matchScanCell_eq g y) _ acc

theorem mem_matchedPuyos {g : Grid} {p : Pos} :
    p ∈ matchedPuyos g ↔ ∃ y < GRID_ROWS, ∃ x < GRID_COLS,
      getCell g (y : Int) (x : Int) ≠ none ∧
      4 ≤ (findConnectedPuyos g (x : Int) (y : Int) (getCell g (y : Int) (x : Int))).card ∧
      p ∈ findConnectedPuyos g (x : Int) (y : Int) (getCell g (y : Int) (x : Int)) := by
  unfold matchedPuyos
  rw [foldl_union_mem (matchScanRow g) (matchScanRow g ∅)
    (fun acc y => matchScanRow_eq g acc y)]
  simp only [Finset.not_mem_empty, false_or, List.mem_range]
  constructor
  · rintro ⟨y, hy, hp⟩
    rw [matchScanRow,
      foldl_union_mem (matchScanCell g y) (cellContrib g y) (matchScanCell_eq g y)] at hp
    rcases hp with h | ⟨x, hx, hpx⟩
    · exact absurd h (Finset.not_mem_empty p)
    · rw [List.mem_range] at hx
      unfold cellContrib at hpx
      split at hpx
      · split at hpx
        · exact ⟨y, hy, x, hx, by tauto⟩
        · exact absurd hpx (Finset.not_mem_empty p)
      · exact absurd hpx (Finset.not_mem_empty p)
  · rintro ⟨y, hy, x, hx, hne, hcard, hp⟩
    refine ⟨y, hy, ?_⟩
    rw [matchScanRow,
      foldl_union_mem (matchScanCell g y) (cellContrib g y) (matchScanCell_eq g y)]
    refine Or.inr ⟨x, List.mem_range.mpr hx, ?_⟩
    unfold cellContrib
    rw [if_pos hne, if_pos hcard]
    exact hp

theorem matchedPuyos_iff_specMatched (g : Grid) (p : Pos) :
    p ∈ matchedPuyos g ↔ p ∈ specMatched g := by
  rw [mem_matchedPuyos]
  simp only [specMatched, Set.mem_setOf_eq]
  constructor
  · rintro ⟨y, hy, x, hx, hne, hcard, hp⟩
    have hin : inB ((x : Int), (y : Int)) := ⟨by omega, by omega, by omega, by omega⟩
    have hreach : floodReach g (cellAt g ((x : Int), (y : Int))) ((x : Int), (y : Int)) p :=
      (findConnectedPuyos_mem_iff g (cellAt g ((x : Int), (y : Int)))
        (x : Int) (y : Int) ⟨hin, rfl⟩ p).mp hp
    have hgp : floodGood g (cellAt g ((x : Int), (y : Int))) p :=
      floodReach_good hreach ⟨hin, rfl⟩
    have hconn : connectedTo g ((x : Int), (y : Int)) p :=
      (floodReach_iff_connectedTo hin hne p).mp hreach
    refine ⟨hgp.1, by rw [hgp.2]; exact hne, ?_⟩
    have hgroup : specGroup g p = specGroup g ((x : Int), (y : Int)) := by
      ext q
      simp only [specGroup, Set.mem_setOf_eq]
      constructor
      · intro hpq; exact Relation.ReflTransGen.trans hconn hpq
      · intro hsq; exact Relation.ReflTransGen.trans (connectedTo_symm hconn) hsq
    rw [hgroup, ← findConnectedPuyos_card g ((x : Int), (y : Int)) hin hne]
    exact hcard
  · rintro ⟨hin, hne, hcard⟩
    obtain ⟨hx0, hx6, hy0, hy12⟩ := hin
    have h1 : ((p.1.toNat : Nat) : Int) = p.1 := Int.toNat_of_nonneg hx0
    have h2 : ((p.2.toNat : Nat) : Int) = p.2 := Int.toNat_of_nonneg hy0
    refine ⟨p.2.toNat, by omega, p.1.toNat, by omega, ?_, ?_, ?_⟩
    · rw [h1, h2]; exact hne
    · rw [h1, h2]
      rw [show findConnectedPuyos g p.1 p.2 (getCell g p.2 p.1) =
        findConnectedPuyos g p.1 p.2 (cellAt g p) from rfl]
      rw [findConnectedPuyos_card g p ⟨hx0, hx6, hy0, hy12⟩ hne]
      exact hcard
    · rw [h1, h2]
      exact (findConnectedPuyos_mem_iff g (cellAt g p) p.1 p.2
        ⟨⟨hx0, hx6, hy0, hy12⟩, rfl⟩ p).mpr Relation.ReflTransGen.refl

theorem matchedPuyos_good {g : Grid} {p : Pos} (hp : p ∈ matchedPuyos g) :
    inB p ∧ cellAt g p ≠ none := by
  have h := (matchedPuyos_iff_specMatched g p).mp hp
  simp only [specMatched, Set.mem_setOf_eq] at h
  exact ⟨h.1, h.2.1⟩

theorem matchedPuyos_card_ge {g : Grid} (h : (matchedPuyos g).Nonempty) :
    4 ≤ (matchedPuyos g).card := by
  obtain ⟨p, hp⟩ := h
  obtain ⟨y, hy, x, hx, hne, hcard, hpf⟩ := mem_matchedPuyos.mp hp
  refine le_trans hcard (Finset.card_le_card ?_)
  intro q hq
  exact mem_matchedPuyos.mpr ⟨y, hy, x, hx, hne, hcard, hq⟩

/-- Removal step of `checkForMatches`:
`matchedPuyos.forEach(match => ... newGrid[y][x] = null)`.  Every matched
position is in bounds (`matchedPuyos_good`), so iterating the in-place
nulling over the set equals this pointwise description. -/
def removeMatched (g : Grid) (matched : Finset Pos) : Grid :=
  fun y x => if ((x : Int), (y : Int)) ∈ matched then none else g y x

theorem cellAt_removeMatched (g : Grid) (m : Finset Pos) (p : Pos)
    (hm : ∀ q ∈ m, inB q) :
    cellAt (removeMatched g m) p = if p ∈ m then none else cellAt g p := by
  by_cases hin : inB p
  · obtain ⟨hx0, hx6, hy0, hy12⟩ := hin
    unfold cellAt getCell removeMatched
    rw [dif_pos ⟨hy0, hy12, hx0, hx6⟩, dif_pos ⟨hy0, hy12, hx0, hx6⟩]
    have h1 : ((p.1.toNat : Nat) : Int) = p.1 := Int.toNat_of_nonneg hx0
    have h2 : ((p.2.toNat : Nat) : Int) = p.2 := Int.toNat_of_nonneg hy0
    simp only [removeMatched, Fin.val_mk, h1, h2, Prod.mk.eta]
  · have hpm : p ∉ m := fun h => hin (hm p h)
    rw [if_neg hpm]
    unfold cellAt getCell removeMatched
    rw [dif_neg (by unfold inB at hin; omega), dif_neg (by unfold inB at hin; omega)]

/-- Example grid: a single red L-shaped region of exactly 4 cells. -/
def exLGrid : Grid := fun y x =>
  if (y = 11 ∧ x = 0) ∨ (y = 10 ∧ x = 0) ∨ (y = 11 ∧ x = 1) ∨ (y = 11 ∧ x = 2) then
    some PuyoColor.red else none

/-- Example grid: a single red region of exactly 3 cells. -/
def exTripleGrid : Grid := fun y x =>
  if y = 11 ∧ (x = 0 ∨ x = 1 ∨ x = 2) then some PuyoColor.red else none

/-- Claim C2: in each resolution pass, the removal step clears exactly the
cells of 4-directionally connected same-non-empty-color groups of size at
least 4, with the whole matched set collected on the pass's input grid
before any cell is cleared and all marked cells cleared simultaneously;
an L-shaped single-color region of exactly 4 cells clears fully in one
pass, and a 3-cell same-color region never clears. -/
theorem claim_C2_match_pass :
    (∀ (g : Grid) (p : Pos), p ∈ matchedPuyos g ↔ p ∈ specMatched g) ∧
    (∀ (g : Grid) (p : Pos), cellAt (removeMatched g (matchedPuyos g)) p =
        if p ∈ matchedPuyos g then none else cellAt g p) ∧
    removeMatched exLGrid (matchedPuyos exLGrid) = createEmptyGrid ∧
    matchedPuyos exTripleGrid = ∅ := by
  refine ⟨matchedPuyos_iff_specMatched, ?_, by decide, by decide⟩
  intro g p
  exact cellAt_removeMatched g (matchedPuyos g) p (fun q hq => (matchedPuyos_good hq).1)

theorem getCell_out (g : Grid) {y x : Int}
    (h : ¬(0 ≤ y ∧ y < (GRID_ROWS : Int) ∧ 0 ≤ x ∧ x < (GRID_COLS : Int))) :
    getCell g y x = none := dif_neg h

theorem getCell_setCell_same (g : Grid) (y x : Int) (c : Cell)
    (hb : 0 ≤ y ∧ y < (GRID_ROWS : Int) ∧ 0 ≤ x ∧ x < (GRID_COLS : Int)) :
    getCell (setCell g y x c) y x = c := by
  unfold getCell setCell
  rw [dif_pos hb, dif_pos hb]
  simp

theorem getCell_setCell_ne (g : Grid) (y x : Int) (c : Cell) (y2 x2 : Int)
    (h : y2 ≠ y ∨ x2 ≠ x) :
    getCell (setCell g y x c) y2 x2 = getCell g y2 x2 := by
  unfold setCell
  split
  case isFalse => rfl
  case isTrue h1 =>
    unfold getCell
    split
    case isFalse => rfl
    case isTrue h2 =>
      simp only [Fin.mk.injEq]
      rw [if_neg (by omega)]

/-- Body of the inner gravity loop for column `x` at row `y`
(`if (newGrid[y][x] !== null) { newGrid[writeY][x] = newGrid[y][x];
if (writeY !== y) newGrid[y][x] = null; writeY-- }`). -/
def gravityStep (x : Nat) (st : Grid × Int) (y : Nat) : Grid × Int :=
  match getCell st.1 (y : Int) (x : Int) with
  | none => st
  | some c =>
      let g1 := setCell st.1 st.2 (x : Int) (some c)
      let g2 := if st.2 ≠ (y : Int) then setCell g1 (y : Int) (x : Int) none else g1
      (g2, st.2 - 1)

/-- The inner gravity loop `for (let y = GRID_ROWS - 1; y >= 0; y--)`:
`gravityDown x n st` performs the iterations `y = n-1, n-2, ..., 0` in the
source's top-of-loop-first order (`n-1` is processed first). -/
def gravityDown (x : Nat) : Nat → Grid × Int → Grid × Int
  | 0, st => st
  | n + 1, st => gravityDown x n (gravityStep x st n)

/-- One iteration of the outer gravity loop: process column `x`, starting
with `writeY = GRID_ROWS - 1`. -/
def gravityCol (g : Grid) (x : Nat) : Grid :=
  (gravityDown x GRID_ROWS (g, (GRID_ROWS : Int) - 1)).1

/-- The outer gravity loop `for (let x = 0; x < GRID_COLS; x++)`:
`applyGravityAux n` processes columns `0, 1, ..., n-1` in order. -/
def applyGravityAux : Nat → Grid → Grid
  | 0, g => g
  | n + 1, g => gravityCol (applyGravityAux n g) n

/-- Source `applyGravity(grid)`. -/
def applyGravity (g : Grid) : Grid := applyGravityAux GRID_COLS g

/-- Column `x` of a grid, top to bottom. -/
def colCells (g : Grid) (x : Nat) : List Cell :=
  (List.range GRID_ROWS).map (fun (y : Nat) => getCell g (y : Int) (x : Int))

/-- Spec-side description of gravity on one column (spec 4.4 step 5): the
stable partition pushing non-empty entries to the bottom, empties above. -/
def stablePartCol (col : List Cell) : List Cell :=
  List.replicate (col.length - (col.filterMap id).length) none ++
    (col.filterMap id).map some

/-- Spec-side gravity: every column independently replaced by its stable
partition. -/
def specGravity (g : Grid) : Grid := fun y x =>
  (stablePartCol (colCells g (x : Nat))).getD (y : Nat) none

/-- The non-empty cells among the first `n` rows of column `x`, top to
bottom. -/
def filledOf (g : Grid) (x n : Nat) : List PuyoColor :=
  ((List.range n).map (fun (y : Nat) => getCell g (y : Int) (x : Int))).filterMap id

theorem getD_stack_last (F : List PuyoColor) (c : PuyoColor) :
    ((F ++ [c]).map some).getD F.length none = some c := by
  rw [List.map_append, List.getD_append_right _ _ _ _ (by simp)]
  simp

theorem getD_stack_lt (F : List PuyoColor) (c : PuyoColor) (i : Nat)
    (h : i < F.length) :
    ((F ++ [c]).map some).getD i none = (F.map some).getD i none := by
  rw [List.map_append, List.getD_append _ _ _ _ (by simpa using h)]

/-- Invariant of the inner gravity loop: after the iterations for rows
`n-1 .. 0` run from write cursor `w`, the cursor has moved up by the
number of non-empty cells among rows `0..n-1` of column `x`, those cells
sit immediately below `w` (inclusive) in their original order, the
positions of rows `0..n-1` at or below the final cursor are empty, and
every other cell of the grid is untouched. -/
theorem gravityDown_spec (x : Nat) (hx : x < GRID_COLS) (n : Nat) :
    n ≤ GRID_ROWS → ∀ (g : Grid) (w : Int),
    (n : Int) - 1 ≤ w → w < (GRID_ROWS : Int) →
    ((gravityDown x n (g, w)).2 = w - (filledOf g x n).length ∧
     (∀ (y2 x2 : Int), x2 ≠ (x : Int) →
        getCell (gravityDown x n (g, w)).1 y2 x2 = getCell g y2 x2) ∧
     (∀ (y2 : Int), 0 ≤ y2 → y2 < (GRID_ROWS : Int) →
        getCell (gravityDown x n (g, w)).1 y2 (x : Int) =
          if w < y2 then getCell g y2 (x : Int)
          else if w - (filledOf g x n).length < y2 then
            ((filledOf g x n).map some).getD (y2 - w + (filledOf g x n).length - 1).toNat none
          else if (n : Int) ≤ y2 then getCell g y2 (x : Int)
          else none)) := by
  induction n with
  | zero =>
    intro _ g w hw1 hw2
    refine ⟨by simp [gravityDown, filledOf], fun y2 x2 _ => rfl, ?_⟩
    intro y2 hy0 hy12
    show getCell g y2 (x : Int) = _
    simp only [filledOf, List.range_zero, List.map_nil, List.filterMap_nil,
      List.length_nil, Nat.cast_zero]
    by_cases h1 : w < y2
    · rw [if_pos h1]
    · rw [if_neg h1, if_neg (by omega), if_pos (by omega)]
  | succ n ih =>
    intro hn g w hw1 hw2
    have hn' : n ≤ GRID_ROWS := by omega
    have hwn : (n : Int) ≤ w := by push_cast at hw1; omega
    have hxIb : 0 ≤ (x : Int) ∧ (x : Int) < (GRID_COLS : Int) :=
      ⟨Int.natCast_nonneg x, by exact_mod_cast hx⟩
    have hnIb : 0 ≤ (n : Int) ∧ (n : Int) < (GRID_ROWS : Int) :=
      ⟨Int.natCast_nonneg n, by exact_mod_cast (by omega : n < GRID_ROWS)⟩
    rcases hcell : getCell g (n : Int) (x : Int) with _ | c
    · -- the cell at row n is empty: the iteration is a no-op
      have hstep : gravityStep x (g, w) n = (g, w) := by
        unfold gravityStep
        rw [hcell]
      have hfill : filledOf g x (n + 1) = filledOf g x n := by
        unfold filledOf
        rw [List.range_succ, List.map_append, List.filterMap_append]
        simp [hcell]
      have hred : gravityDown x (n + 1) (g, w) = gravityDown x n (g, w) := by
        show gravityDown x n (gravityStep x (g, w) n) = _
        rw [hstep]
      obtain ⟨ih1, ih2, ih3⟩ := ih hn' g w (by omega) hw2
      rw [hred, hfill]
      refine ⟨ih1, ih2, ?_⟩
      intro y2 hy0 hy12
      rw [ih3 y2 hy0 hy12]
      by_cases h1 : w < y2
      · rw [if_pos h1, if_pos h1]
      · rw [if_neg h1, if_neg h1]
        by_cases h2 : w - ((filledOf g x n).length : Int) < y2
        · rw [if_pos h2, if_pos h2]
        · rw [if_neg h2, if_neg h2]
          by_cases h4 : ((n + 1 : Nat) : Int) ≤ y2
          · rw [if_pos (by push_cast at h4 ⊢; omega), if_pos h4]
          · rw [if_neg h4]
            by_cases h3 : ((n : Nat) : Int) ≤ y2
            · rw [if_pos h3]
              have hyn : y2 = (n : Int) := by push_cast at h4; omega
              rw [hyn, hcell]
            · rw [if_neg h3]
    · -- the cell at row n holds color c: it is written at the cursor
      set g1 := setCell g w (x : Int) (some c) with hg1
      set G2 := if w ≠ (n : Int) then setCell g1 (n : Int) (x : Int) none else g1 with hG2
      have hstep : gravityStep x (g, w) n = (G2, w - 1) := by
        simp only [gravityStep, hcell, hG2, hg1]
      have hred : gravityDown x (n + 1) (g, w) = gravityDown x n (G2, w - 1) := by
        show gravityDown x n (gravityStep x (g, w) n) = _
        rw [hstep]
      have hA : getCell G2 w (x : Int) = some c := by
        rw [hG2]
        split
        case isTrue hne =>
          rw [getCell_setCell_ne _ _ _ _ _ _ (Or.inl hne), hg1,
            getCell_setCell_same _ _ _ _ ⟨by omega, hw2, hxIb.1, hxIb.2⟩]
        case isFalse hne =>
          rw [hg1, getCell_setCell_same _ _ _ _ ⟨by omega, hw2, hxIb.1, hxIb.2⟩]
      have hB : ∀ y2 : Int, y2 < (n : Int) →
          getCell G2 y2 (x : Int) = getCell g y2 (x : Int) := by
        intro y2 hy2
        rw [hG2]
        split
        · rw [getCell_setCell_ne _ _ _ _ _ _ (Or.inl (by omega)), hg1,
            getCell_setCell_ne _ _ _ _ _ _ (Or.inl (by omega))]
        · rw [hg1, getCell_setCell_ne _ _ _ _ _ _ (Or.inl (by omega))]
      have hC : getCell G2 (n : Int) (x : Int) = if w = (n : Int) then some c else none := by
        rw [hG2]
        by_cases hwn2 : w = (n : Int)
        · rw [if_neg (not_not_intro hwn2), if_pos hwn2, hg1, ← hwn2,
            getCell_setCell_same _ _ _ _ ⟨by omega, hw2, hxIb.1, hxIb.2⟩]
        · rw [if_pos hwn2, if_neg hwn2,
            getCell_setCell_same _ _ _ _ ⟨hnIb.1, hnIb.2, hxIb.1, hxIb.2⟩]
      have hD : ∀ y2 : Int, (n : Int) < y2 → y2 ≠ w →
          getCell G2 y2 (x : Int) = getCell g y2 (x : Int) := by
        intro y2 hy2 hyw
        rw [hG2]
        split
        · rw [getCell_setCell_ne _ _ _ _ _ _ (Or.inl (by omega)), hg1,
            getCell_setCell_ne _ _ _ _ _ _ (Or.inl hyw)]
        · rw [hg1, getCell_setCell_ne _ _ _ _ _ _ (Or.inl hyw)]
      have hE : ∀ y2 x2 : Int, x2 ≠ (x : Int) →
          getCell G2 y2 x2 = getCell g y2 x2 := by
        intro y2 x2 hx2
        rw [hG2]
        split
        · rw [getCell_setCell_ne _ _ _ _ _ _ (Or.inr hx2), hg1,
            getCell_setCell_ne _ _ _ _ _ _ (Or.inr hx2)]
        · rw [hg1, getCell_setCell_ne _ _ _ _ _ _ (Or.inr hx2)]
      have hpre : filledOf G2 x n = filledOf g x n := by
        unfold filledOf
        congr 1
        apply List.map_congr_left
        intro y hy
        rw [List.mem_range] at hy
        exact hB (y : Int) (by exact_mod_cast hy)
      have hfill : filledOf g x (n + 1) = filledOf g x n ++ [c] := by
        unfold filledOf
        rw [List.range_succ, List.map_append, List.filterMap_append]
        simp [hcell]
      obtain ⟨ih1, ih2, ih3⟩ := ih hn' G2 (w - 1) (by omega) (by omega)
      rw [hred]
      refine ⟨?_, ?_, ?_⟩
      · rw [ih1, hpre, hfill, List.length_append, List.length_singleton]
        push_cast
        ring
      · intro y2 x2 hx2
        rw [ih2 y2 x2 hx2, hE y2 x2 hx2]
      · intro y2 hy0 hy12
        rw [ih3 y2 hy0 hy12, hpre, hfill, List.length_append, List.length_singleton]
        push_cast
        rcases lt_trichotomy w y2 with h1 | h1 | h1
        · rw [if_pos (by omega : w - 1 < y2), if_pos h1]
          exact hD y2 (by omega) (by omega)
        · subst h1
          rw [if_pos (by omega : w - 1 < w), if_neg (lt_irrefl w),
            if_pos (by omega : w - (((filledOf g x n).length : Int) + 1) < w), hA]
          have hidx : (w - w + (((filledOf g x n).length : Int) + 1) - 1).toNat
              = (filledOf g x n).length := by omega
          rw [hidx, getD_stack_last]
        · rw [if_neg (by omega : ¬ w - 1 < y2), if_neg (by omega : ¬ w < y2)]
          by_cases h2 : w - (((filledOf g x n).length : Int) + 1) < y2
          · rw [if_pos h2, if_pos (by omega : w - 1 - ((filledOf g x n).length : Int) < y2)]
            have hidx1 : (y2 - (w - 1) + ((filledOf g x n).length : Int) - 1).toNat
                = (y2 - w + (filledOf g x n).length).toNat := by omega
            have hidx2 : (y2 - w + (((filledOf g x n).length : Int) + 1) - 1).toNat
                = (y2 - w + (filledOf g x n).length).toNat := by omega
            rw [hidx1, hidx2, getD_stack_lt _ _ _ (by omega)]
          · rw [if_neg h2, if_neg (by omega : ¬ w - 1 - ((filledOf g x n).length : Int) < y2)]
            by_cases h4 : ((n : Int) + 1) ≤ y2
            · rw [if_pos (by omega : (n : Int) + 1 ≤ y2), if_pos (by omega : (n : Int) ≤ y2)]
              exact hD y2 (by omega) (by omega)
            · rw [if_neg (by omega : ¬ (n : Int) + 1 ≤ y2)]
              by_cases h3 : (n : Int) ≤ y2
              · rw [if_pos h3]
                have hyn : y2 = (n : Int) := by omega
                rw [hyn, hC, if_neg (by omega : ¬ w = (n : Int))]
              · rw [if_neg h3]

theorem getCell_fin (g : Grid) (y : Fin GRID_ROWS) (x : Fin GRID_COLS) :
    getCell g ((y : Nat) : Int) ((x : Nat) : Int) = g y x := by
  unfold getCell
  rw [dif_pos ⟨Int.natCast_nonneg _, by exact_mod_cast y.isLt,
    Int.natCast_nonneg _, by exact_mod_cast x.isLt⟩]
  congr 1 <;> simp

theorem filledOf_length_le (g : Grid) (x : Nat) :
    (filledOf g x GRID_ROWS).length ≤ GRID_ROWS := by
  unfold filledOf
  calc (((List.range GRID_ROWS).map
        (fun (y : Nat) => getCell g (y : Int) (x : Int))).filterMap id).length
      ≤ ((List.range GRID_ROWS).map
        (fun (y : Nat) => getCell g (y : Int) (x : Int))).length :=
        List.length_filterMap_le _ _
    _ = GRID_ROWS := by simp

theorem gravityCol_spec (G : Grid) (x : Nat) (hx : x < GRID_COLS) :
    (∀ (y2 x2 : Int), x2 ≠ (x : Int) →
      getCell (gravityCol G x) y2 x2 = getCell G y2 x2) ∧
    (∀ (y2 : Int), 0 ≤ y2 → y2 < (GRID_ROWS : Int) →
      getCell (gravityCol G x) y2 (x : Int) =
        (stablePartCol (colCells G x)).getD y2.toNat none) := by
  obtain ⟨h1, h2, h3⟩ := gravityDown_spec x hx GRID_ROWS le_rfl G ((GRID_ROWS : Int) - 1)
    (by omega) (by omega)
  refine ⟨fun y2 x2 hx2 => h2 y2 x2 hx2, ?_⟩
  intro y2 hy0 hy12
  have hK := filledOf_length_le G x
  rw [show gravityCol G x = (gravityDown x GRID_ROWS (G, (GRID_ROWS : Int) - 1)).1 from rfl,
    h3 y2 hy0 hy12]
  have hcol : (colCells G x).filterMap id = filledOf G x GRID_ROWS := rfl
  have hlen : (colCells G x).length = GRID_ROWS := by unfold colCells; simp
  unfold stablePartCol
  rw [hcol, hlen]
  rw [if_neg (by omega : ¬ (GRID_ROWS : Int) - 1 < y2)]
  by_cases hcase : (GRID_ROWS : Int) - 1 - ((filledOf G x GRID_ROWS).length : Int) < y2
  · rw [if_pos hcase,
      List.getD_append_right _ _ _ _ (by simp [List.length_replicate]; omega)]
    rw [List.length_replicate]
    have hidx : (y2 - ((GRID_ROWS : Int) - 1) + ((filledOf G x GRID_ROWS).length : Int) - 1).toNat
        = y2.toNat - (GRID_ROWS - (filledOf G x GRID_ROWS).length) := by omega
    rw [hidx]
  · rw [if_neg hcase, if_neg (by omega : ¬ (GRID_ROWS : Int) ≤ y2)]
    rw [List.getD_append _ _ _ _ (by simp [List.length_replicate]; omega)]
    rw [List.getD_eq_getElem _ _ (by simp [List.length_replicate]; omega)]
    simp

theorem applyGravityAux_spec (g : Grid) (m : Nat) (hm : m ≤ GRID_COLS) :
    ∀ (y2 x2 : Int), 0 ≤ y2 → y2 < (GRID_ROWS : Int) →
      0 ≤ x2 → x2 < (GRID_COLS : Int) →
      getCell (applyGravityAux m g) y2 x2 =
        if x2 < (m : Int) then (stablePartCol (colCells g x2.toNat)).getD y2.toNat none
        else getCell g y2 x2 := by
  induction m with
  | zero =>
    intro y2 x2 _ _ hx0 _
    rw [if_neg (by omega)]
    rfl
  | succ m ih =>
    intro y2 x2 hy0 hy12 hx0 hx6
    have hm' : m ≤ GRID_COLS := by omega
    have hred : applyGravityAux (m + 1) g = gravityCol (applyGravityAux m g) m := rfl
    obtain ⟨hoff, hcol⟩ := gravityCol_spec (applyGravityAux m g) m (by omega)
    rw [hred]
    rcases lt_trichotomy x2 (m : Int) with h1 | h1 | h1
    · rw [if_pos (by omega), hoff y2 x2 (by omega), ih hm' y2 x2 hy0 hy12 hx0 hx6,
        if_pos h1]
    · subst h1
      rw [if_pos (by omega)]
      have hxm : ((m : Int)).toNat = m := by omega
      rw [hxm, hcol y2 hy0 hy12]
      have hcols : colCells (applyGravityAux m g) m = colCells g m := by
        apply List.map_congr_left
        intro y hy
        rw [List.mem_range] at hy
        rw [ih hm' (y : Int) (m : Int) (by omega) (by exact_mod_cast hy)
          (by omega) (by omega), if_neg (by omega)]
      rw [hcols]
    · rw [if_neg (by omega), hoff y2 x2 (by omega),
        ih hm' y2 x2 hy0 hy12 hx0 hx6, if_neg (by omega)]

/-- Grid-level correctness of `applyGravity`: every column of the result
is the stable partition of the original column. -/
theorem applyGravity_eq_specGravity (g : Grid) : applyGravity g = specGravity g := by
  funext y x
  have h := applyGravityAux_spec g GRID_COLS le_rfl ((y : Nat) : Int) ((x : Nat) : Int)
    (Int.natCast_nonneg _) (by exact_mod_cast y.isLt)
    (Int.natCast_nonneg _) (by exact_mod_cast x.isLt)
  rw [getCell_fin] at h
  show applyGravityAux GRID_COLS g y x = _
  rw [h, if_pos (by exact_mod_cast x.isLt)]
  simp [specGravity]

theorem filterMap_id_replicate_none (n : Nat) :
    (List.replicate n (none : Cell)).filterMap id = [] := by
  induction n with
  | zero => rfl
  | succ m ih => simp [List.replicate_succ, ih]

theorem stablePartCol_length (col : List Cell) :
    (stablePartCol col).length = col.length := by
  unfold stablePartCol
  have h := List.length_filterMap_le id col
  simp
  omega

theorem filterMap_id_stablePartCol (col : List Cell) :
    (stablePartCol col).filterMap id = col.filterMap id := by
  unfold stablePartCol
  rw [List.filterMap_append, filterMap_id_replicate_none, List.nil_append,
    List.filterMap_map]
  simp

theorem stablePartCol_idem (col : List Cell) :
    stablePartCol (stablePartCol col) = stablePartCol col := by
  conv_lhs => rw [stablePartCol]
  rw [filterMap_id_stablePartCol, stablePartCol_length]
  rfl

theorem map_getD_range {α : Type} (l : List α) (d : α) :
    (List.range l.length).map (fun i => l.getD i d) = l := by
  apply List.ext_getElem
  · simp
  · intro i h1 h2
    simp only [List.getElem_map, List.getElem_range]
    rw [List.getD_eq_getElem _ _ h2]

theorem specGravity_getCell (g : Grid) {y x : Nat} (hy : y < GRID_ROWS)
    (hx : x < GRID_COLS) :
    getCell (specGravity g) (y : Int) (x : Int) =
      (stablePartCol (colCells g x)).getD y none :=
  getCell_fin (specGravity g) ⟨y, hy⟩ ⟨x, hx⟩

theorem colCells_specGravity (g : Grid) {x : Nat} (hx : x < GRID_COLS) :
    colCells (specGravity g) x = stablePartCol (colCells g x) := by
  unfold colCells
  have hmap : (List.range GRID_ROWS).map
      (fun (y : Nat) => getCell (specGravity g) (y : Int) (x : Int)) =
      (List.range GRID_ROWS).map
      (fun (y : Nat) => (stablePartCol (colCells g x)).getD y none) := by
    apply List.map_congr_left
    intro y hy
    rw [List.mem_range] at hy
    exact specGravity_getCell g hy hx
  rw [hmap]
  have hlen : (stablePartCol (colCells g x)).length = GRID_ROWS := by
    rw [stablePartCol_length]
    unfold colCells
    simp
  conv_lhs => rw [← hlen]
  exact map_getD_range _ _

theorem specGravity_idem (g : Grid) : specGravity (specGravity g) = specGravity g := by
  funext y x
  show (stablePartCol (colCells (specGravity g) (x : Nat))).getD (y : Nat) none = _
  rw [colCells_specGravity g x.isLt, stablePartCol_idem]
  rfl

/-- Claim C5: `applyGravity` compacts, independently per column, the
non-empty cells downward preserving their relative vertical order and
fills the vacated cells above with empty: each resulting column is the
stable partition of the original column pushing non-empty entries to the
bottom. -/
theorem claim_C5_gravity_stable_partition :
    ∀ g : Grid, applyGravity g = specGravity g :=
  applyGravity_eq_specGravity

/-- Claim C8: `applyGravity` is idempotent. -/
theorem claim_C8_gravity_idempotent :
    ∀ g : Grid, applyGravity (applyGravity g) = applyGravity g := by
  intro g
  rw [applyGravity_eq_specGravity g, applyGravity_eq_specGravity (specGravity g),
    specGravity_idem]

/-- The occupied (non-empty) cells of a grid. -/
def occupiedCells (g : Grid) : Finset Pos :=
  validCells.filter (fun p => cellAt g p ≠ none)

theorem filter_range_card (f : Nat → Cell) (n : Nat) :
    ((Finset.range n).filter (fun y => f y ≠ none)).card =
      (((List.range n).map f).filterMap id).length := by
  induction n with
  | zero => rfl
  | succ n ih =>
    rw [Finset.range_succ, Finset.filter_insert, List.range_succ, List.map_append,
      List.filterMap_append, List.length_append]
    by_cases hf : f n ≠ none
    · rw [if_pos hf, Finset.card_insert_of_not_mem (by simp)]
      obtain ⟨c, hc⟩ := Option.ne_none_iff_exists'.mp hf
      simp only [List.map_cons, List.map_nil, hc]
      simp [ih]
    · rw [if_neg hf]
      push_neg at hf
      simp [hf, ih]

theorem colOcc_card (g : Grid) (x : Nat) (hx : x < GRID_COLS) :
    ((occupiedCells g).filter (fun p => p.1.toNat = x)).card =
      ((Finset.range GRID_ROWS).filter
        (fun (y : Nat) => getCell g (y : Int) (x : Int) ≠ none)).card := by
  apply Finset.card_bij (fun p _ => p.2.toNat)
  · intro p hp
    simp only [occupiedCells, Finset.mem_filter, mem_validCells] at hp
    obtain ⟨⟨hin, hne⟩, hfst⟩ := hp
    obtain ⟨hx0, hx6, hy0, hy12⟩ := hin
    simp only [Finset.mem_filter, Finset.mem_range]
    constructor
    · omega
    · have h2 : ((p.2.toNat : Nat) : Int) = p.2 := Int.toNat_of_nonneg hy0
      have h1 : ((x : Nat) : Int) = p.1 := by omega
      rw [h2, h1]
      exact hne
  · intro p hp q hq hpq
    simp only [occupiedCells, Finset.mem_filter, mem_validCells] at hp hq
    have hp1 := hp.1.1
    have hq1 := hq.1.1
    unfold inB at hp1 hq1
    have : p.1 = q.1 := by omega
    have : p.2 = q.2 := by omega
    exact Prod.ext (by omega) (by omega)
  · intro y hy
    simp only [Finset.mem_filter, Finset.mem_range] at hy
    refine ⟨((x : Int), (y : Int)), ?_, by omega⟩
    simp only [occupiedCells, Finset.mem_filter, mem_validCells]
    exact ⟨⟨⟨by omega, by omega, by omega, by omega⟩, hy.2⟩, by omega⟩

theorem occupiedCells_card_eq_sum (g : Grid) :
    (occupiedCells g).card =
      ∑ x ∈ Finset.range GRID_COLS, ((colCells g x).filterMap id).length := by
  have hH : ∀ p ∈ occupiedCells g, p.1.toNat ∈ Finset.range GRID_COLS := by
    intro p hp
    simp only [occupiedCells, Finset.mem_filter, mem_validCells] at hp
    have := hp.1
    unfold inB at this
    simp only [Finset.mem_range]
    omega
  rw [Finset.card_eq_sum_card_fiberwise hH]
  apply Finset.sum_congr rfl
  intro x hx
  rw [Finset.mem_range] at hx
  rw [colOcc_card g x hx]
  exact filter_range_card (fun (y : Nat) => getCell g (y : Int) (x : Int)) GRID_ROWS

theorem occupied_card_applyGravity (g : Grid) :
    (occupiedCells (applyGravity g)).card = (occupiedCells g).card := by
  rw [occupiedCells_card_eq_sum, occupiedCells_card_eq_sum]
  apply Finset.sum_congr rfl
  intro x hx
  rw [Finset.mem_range] at hx
  rw [show colCells (applyGravity g) x = stablePartCol (colCells g x) from
    (by rw [applyGravity_eq_specGravity]; exact colCells_specGravity g hx)]
  rw [filterMap_id_stablePartCol]

theorem matchedPuyos_subset_occupied (g : Grid) :
    matchedPuyos g ⊆ occupiedCells g := by
  intro p hp
  obtain ⟨hin, hne⟩ := matchedPuyos_good hp
  simp only [occupiedCells, Finset.mem_filter, mem_validCells]
  exact ⟨hin, hne⟩

theorem occupied_removeMatched (g : Grid) :
    occupiedCells (removeMatched g (matchedPuyos g)) =
      occupiedCells g \ matchedPuyos g := by
  ext p
  simp only [occupiedCells, Finset.mem_filter, Finset.mem_sdiff]
  rw [cellAt_removeMatched g _ p (fun q hq => (matchedPuyos_good hq).1)]
  by_cases hpm : p ∈ matchedPuyos g <;> simp [hpm]

/-- Each clearing pass removes at least 4 occupied cells, and gravity
preserves the occupied count. -/
theorem occupied_decrement {g : Grid} (h : (matchedPuyos g).Nonempty) :
    (occupiedCells (applyGravity (removeMatched g (matchedPuyos g)))).card + 4 ≤
      (occupiedCells g).card := by
  rw [occupied_card_applyGravity, occupied_removeMatched,
    Finset.card_sdiff (matchedPuyos_subset_occupied g)]
  have h4 := matchedPuyos_card_ge h
  have hle := Finset.card_le_card (matchedPuyos_subset_occupied g)
  omega

theorem occupied_card_le (g : Grid) : (occupiedCells g).card ≤ 72 := by
  calc (occupiedCells g).card ≤ validCells.card := Finset.card_filter_le _ _
    _ = 72 := validCells_card

/-- Upper bound on the iterations of the chain loop: each clearing pass
removes at least 4 of the at most 72 occupied cells, so at most 18 passes
clear anything; with fuel 19 the loop always reaches its exit condition
(`claim_C6_chain_loop` below proves extra fuel changes nothing), making
the fuelled recursion a faithful rendering of the source's unbounded
`do ... while`. -/
def RESOLVE_FUEL : Nat := 19

/-- The `do { ... } while (hasMatches)` loop of `checkForMatches`,
carrying the grid, the chain counter and the accumulated score delta.
One iteration: collect the matched set of the whole grid; the source's
`hasMatches` flag is set exactly when some group of size at least 4 was
found, i.e. when the matched set is non-empty.  If it is empty the loop
exits; otherwise the chain counter is incremented, the matched cells are
removed, `puyosCleared * 10 * 2^(chainCount-1) + max(0, puyosCleared-4)*5`
points are added, gravity is applied and the loop repeats. -/
def resolveFuel : Nat → Grid → Nat → Nat → Grid × Nat × Nat
  | 0, g, chainCount, score => (g, score, chainCount)
  | fuel + 1, g, chainCount, score =>
      let matched := matchedPuyos g
      if matched = ∅ then (g, score, chainCount)
      else
        let puyosCleared := matched.card
        let chainMultiplier := 2 ^ (chainCount + 1 - 1)
        let groupSizeBonus := (max 0 ((puyosCleared : Int) - 4)).toNat * 5
        let points := puyosCleared * 10 * chainMultiplier + groupSizeBonus
        resolveFuel fuel (applyGravity (removeMatched g matched)) (chainCount + 1)
          (score + points)

/-- The grid-transforming part of `checkForMatches(grid)`: returns the
stabilized grid, the total score delta and the final chain count. -/
def checkForMatchesGrid (g : Grid) : Grid × Nat × Nat :=
  resolveFuel RESOLVE_FUEL g 0 0

theorem resolveFuel_done {g : Grid} (h : matchedPuyos g = ∅)
    (fuel chainCount score : Nat) :
    resolveFuel fuel g chainCount score = (g, score, chainCount) := by
  cases fuel with
  | zero => rfl
  | succ n => simp [resolveFuel, h]

theorem resolveFuel_step {g : Grid} (h : ¬ matchedPuyos g = ∅)
    (fuel chainCount score : Nat) :
    resolveFuel (fuel + 1) g chainCount score =
      resolveFuel fuel (applyGravity (removeMatched g (matchedPuyos g)))
        (chainCount + 1)
        (score + ((matchedPuyos g).card * 10 * 2 ^ (chainCount + 1 - 1) +
          (max 0 (((matchedPuyos g).card : Int) - 4)).toNat * 5)) := by
  simp [resolveFuel, h]

theorem resolveFuel_stable (n : Nat) :
    ∀ (g : Grid) (chainCount score : Nat), (occupiedCells g).card ≤ 4 * n →
    resolveFuel (n + 1) g chainCount score = resolveFuel n g chainCount score := by
  induction n with
  | zero =>
    intro g c s h
    have hm : matchedPuyos g = ∅ := by
      by_contra hne
      obtain ⟨p, hp⟩ := Finset.nonempty_iff_ne_empty.mpr hne
      have := Finset.card_pos.mpr ⟨p, matchedPuyos_subset_occupied g hp⟩
      omega
    rw [resolveFuel_done hm, resolveFuel_done hm]
  | succ n ih =>
    intro g c s h
    by_cases hm : matchedPuyos g = ∅
    · rw [resolveFuel_done hm, resolveFuel_done hm]
    · rw [resolveFuel_step hm, resolveFuel_step hm]
      apply ih
      have := occupied_decrement (Finset.nonempty_iff_ne_empty.mpr hm)
      omega

/-- Spec-side scoring formula (spec 4.4 step 4). -/
def specPassPoints (cleared chainCount : Nat) : Nat :=
  cleared * 10 * 2 ^ (chainCount - 1) + (max 0 ((cleared : Int) - 4)).toNat * 5

/-- Claim C3: every clearing pass of the resolution loop adds exactly
`cleared * 10 * 2^(chainCount-1) + max(0, cleared-4) * 5` points to the
accumulated score, where `chainCount` is the 1-based index of the pass;
in particular 4 cells at chain depth 1 are worth 40 points and 5 cells at
chain depth 2 are worth 105. -/
theorem claim_C3_scoring :
    (∀ (g : Grid) (fuel chainCount score : Nat), matchedPuyos g ≠ ∅ →
      resolveFuel (fuel + 1) g chainCount score =
        resolveFuel fuel (applyGravity (removeMatched g (matchedPuyos g)))
          (chainCount + 1)
          (score + specPassPoints (matchedPuyos g).card (chainCount + 1))) ∧
    specPassPoints 4 1 = 40 ∧ specPassPoints 5 2 = 105 := by
  refine ⟨?_, by decide, by decide⟩
  intro g fuel c s h
  rw [resolveFuel_step h]
  rfl

/-- Witness for C3: the first pass on the 4-cell L-shaped example clears 4
cells at chain depth 1. -/
theorem claim_C3_witness :
    matchedPuyos exLGrid ≠ ∅ ∧
    resolveFuel 5 exLGrid 0 0 =
      resolveFuel 4 (applyGravity (removeMatched exLGrid (matchedPuyos exLGrid))) 1
        (0 + specPassPoints (matchedPuyos exLGrid).card 1) :=
  ⟨by decide, (claim_C3_scoring.1 exLGrid 4 0 0 (by decide))⟩

/-- Example grid for a 2-chain: four reds across the bottom row; three
blues on row 10 above them and a fourth blue at (3,9).  Clearing the reds
drops all four blues onto row 11 where they form a group of 4. -/
def exChainGrid : Grid := fun y x =>
  if y = 11 ∧ (x = 0 ∨ x = 1 ∨ x = 2 ∨ x = 3) then some PuyoColor.red
  else if (y = 10 ∧ (x = 0 ∨ x = 1 ∨ x = 2)) ∨ (y = 9 ∧ x = 3) then some PuyoColor.blue
  else none

/-- Claim C6: the chain-resolution loop terminates: every clearing pass
removes at least 4 occupied cells (so the occupied count strictly
shrinks), running the loop with any fuel beyond `RESOLVE_FUEL = 19`
changes nothing (the exit condition has been reached), and on the example
grid a clear that exposes a second qualifying group after gravity
resolves both passes in the single call, the chain depth reaching exactly
2 with a stable (match-free) final grid. -/
theorem claim_C6_chain_loop :
    (∀ g : Grid, (matchedPuyos g).Nonempty →
      (occupiedCells (applyGravity (removeMatched g (matchedPuyos g)))).card + 4 ≤
        (occupiedCells g).card) ∧
    (∀ (g : Grid) (chainCount score k : Nat),
      resolveFuel (RESOLVE_FUEL + k) g chainCount score =
        resolveFuel RESOLVE_FUEL g chainCount score) ∧
    (checkForMatchesGrid exChainGrid).2.2 = 2 ∧
    matchedPuyos (checkForMatchesGrid exChainGrid).1 = ∅ := by
  refine ⟨fun g h => occupied_decrement h, ?_, by decide, by decide⟩
  intro g c s k
  induction k with
  | zero => rfl
  | succ k ih =>
    rw [show RESOLVE_FUEL + (k + 1) = (RESOLVE_FUEL + k) + 1 from rfl,
      resolveFuel_stable (RESOLVE_FUEL + k) g c s
        (le_trans (occupied_card_le g) (by unfold RESOLVE_FUEL; omega)), ih]

/-- Witness for C6: the decrement inequality holds at the 2-chain example
grid, whose matched set is non-empty. -/
theorem claim_C6_witness :
    (matchedPuyos exChainGrid).Nonempty ∧
    (occupiedCells (applyGravity (removeMatched exChainGrid
        (matchedPuyos exChainGrid)))).card + 4 ≤ (occupiedCells exChainGrid).card :=
  ⟨by decide, claim_C6_chain_loop.1 exChainGrid (by decide)⟩

/-- The source's `GameState` type. -/
inductive GameState : Type
  | title
  | active
  | over
  | pause
deriving DecidableEq, Repr

/-- The React state of `PuyoGameComponent` that the engine reads and
writes: grid, game state, score, falling and queued pieces, chain counter
display and pause flag. -/
structure GameSnapshot where
  grid : Grid
  gameState : GameState
  score : Nat
  currentPuyo : Option PuyoPair
  nextPuyo : Option PuyoPair
  chainCounter : Nat
  isPaused : Bool
deriving DecidableEq

/-- Game-over test of `checkForMatches`:
`newGrid[1].some(cell => cell !== null)`. -/
def row1HasPuyo (g : Grid) : Bool :=
  (List.finRange GRID_COLS).any (fun x => decide (g 1 x ≠ none))

/-- The state effect of `checkForMatches(grid)`: run the chain loop on
the supplied grid, add the score delta to the score, promote the queued
next piece to falling, install a freshly generated pair (`fresh` stands
for the random `generatePuyoPair()` result), reset the chain counter
display to 0, and set the state to `over` exactly when some cell of row
index 1 of the stabilized grid is non-empty. -/
def checkForMatchesState (st : GameSnapshot) (g : Grid) (fresh : PuyoPair) :
    GameSnapshot :=
  let r := checkForMatchesGrid g
  { grid := r.1
    gameState := if row1HasPuyo r.1 then GameState.over else st.gameState
    score := st.score + r.2.1
    currentPuyo := st.nextPuyo
    nextPuyo := some fresh
    chainCounter := 0
    isPaused := st.isPaused }

/-- Source `placePuyo()`: write the pair's two colors at the piece's
current anchor and computed second cell (the writes are unchecked, see
`setCellUnchecked`), clear the falling piece and run `checkForMatches` on
the updated grid. -/
def placePuyoState (st : GameSnapshot) (fresh : PuyoPair) : Option GameSnapshot :=
  match st.currentPuyo with
  | none => some st
  | some p =>
      let s2 := getSecondPuyoPosition p.x p.y p.rotation
      match setCellUnchecked st.grid p.y p.x p.color1 with
      | none => none
      | some g1 =>
          match setCellUnchecked g1 s2.2 s2.1 p.color2 with
          | none => none
          | some g2 => some (checkForMatchesState { st with currentPuyo := none } g2 fresh)

/-- The move directions of `movePuyo`. -/
inductive MoveDir : Type
  | left
  | right
  | down
deriving DecidableEq, Repr

/-- The rotation directions of `rotatePuyo`. -/
inductive RotDir : Type
  | left
  | right
deriving DecidableEq, Repr

/-- The candidate piece `newPuyo` built by `movePuyo`. -/
def movedPiece (p : PuyoPair) (d : MoveDir) : PuyoPair :=
  match d with
  | MoveDir.left => { p with x := p.x - 1 }
  | MoveDir.right => { p with x := p.x + 1 }
  | MoveDir.down => { p with y := p.y + 1 }

/-- The candidate piece built by `rotatePuyo`:
`(rotation + (direction === 'left' ? -1 : 1) + 4) % 4` with the JS
truncated remainder. -/
def rotatedPiece (p : PuyoPair) (d : RotDir) : PuyoPair :=
  { p with rotation := (p.rotation + (if d = RotDir.left then -1 else 1) + 4).tmod 4 }

/-- Source `movePuyo(direction)`: no-op without a falling piece, outside
the active state or while paused; otherwise the moved candidate is
validated, a valid candidate replaces the piece, an invalid `down` lands
the piece via `placePuyo`, and any other invalid move is ignored. -/
def movePuyoState (st : GameSnapshot) (d : MoveDir) (fresh : PuyoPair) :
    Option GameSnapshot :=
  match st.currentPuyo with
  | none => some st
  | some p =>
      if st.gameState ≠ GameState.active ∨ st.isPaused = true then some st
      else
        let newPuyo := movedPiece p d
        if isValidMove st.grid newPuyo then some { st with currentPuyo := some newPuyo }
        else if d = MoveDir.down then placePuyoState st fresh
        else some st

/-- Source `rotatePuyo(direction)`: no-op without a falling piece,
outside the active state or while paused; otherwise the rotated candidate
replaces the piece only if it validates. -/
def rotatePuyoState (st : GameSnapshot) (d : RotDir) : GameSnapshot :=
  match st.currentPuyo with
  | none => st
  | some p =>
      if st.gameState ≠ GameState.active ∨ st.isPaused = true then st
      else
        let newPuyo := rotatedPiece p d
        if isValidMove st.grid newPuyo then { st with currentPuyo := some newPuyo }
        else st

/-- Claim C7: after the chain-resolution loop completes, the game
transitions to `over` exactly when some cell of row index 1 of the
stabilized grid is non-empty; and when that row is fully empty, the game
state is left unchanged (no game-over transition), for every starting
snapshot (in particular regardless of score). -/
theorem claim_C7_game_over_row1 (st : GameSnapshot) (g : Grid) (fresh : PuyoPair) :
    (row1HasPuyo (checkForMatchesState st g fresh).grid = true →
      (checkForMatchesState st g fresh).gameState = GameState.over) ∧
    (row1HasPuyo (checkForMatchesState st g fresh).grid = false →
      (checkForMatchesState st g fresh).gameState = st.gameState) := by
  constructor <;> intro h <;>
    simp only [checkForMatchesState] at h ⊢ <;>
    rw [h] <;> rfl

/-- Example grid with a single red cell in row index 1. -/
def exRow1Grid : Grid := fun y x =>
  if y = 1 ∧ x = 0 then some PuyoColor.red else none

/-- A fixed pair standing in for freshly generated pieces. -/
def freshPair : PuyoPair := ⟨some PuyoColor.green, some PuyoColor.yellow, 2, 0, 0⟩

/-- A plain active, unpaused snapshot on the empty grid. -/
def exActiveSnapshot : GameSnapshot :=
  ⟨createEmptyGrid, GameState.active, 0, none, none, 0, false⟩

/-- Witness for C7: a stray cell in row index 1 forces `over`; the empty
grid leaves the state untouched. -/
theorem claim_C7_witness :
    (row1HasPuyo (checkForMatchesState exActiveSnapshot exRow1Grid freshPair).grid = true ∧
      (checkForMatchesState exActiveSnapshot exRow1Grid freshPair).gameState = GameState.over) ∧
    (row1HasPuyo (checkForMatchesState exActiveSnapshot createEmptyGrid freshPair).grid = false ∧
      (checkForMatchesState exActiveSnapshot createEmptyGrid freshPair).gameState =
        exActiveSnapshot.gameState) :=
  ⟨⟨by decide, (claim_C7_game_over_row1 exActiveSnapshot exRow1Grid freshPair).1 (by decide)⟩,
   ⟨by decide, (claim_C7_game_over_row1 exActiveSnapshot createEmptyGrid freshPair).2 (by decide)⟩⟩

/-- Claim C9: movement and rotation requests are no-ops — the whole
snapshot unchanged — whenever the game state is not `active` or the game
is paused; and a lateral or rotation request whose target fails
validation is silently ignored, leaving the snapshot (piece included)
unchanged. -/
theorem claim_C9_noop_requests :
    (∀ (st : GameSnapshot) (d : MoveDir) (fresh : PuyoPair),
      st.gameState ≠ GameState.active ∨ st.isPaused = true →
      movePuyoState st d fresh = some st) ∧
    (∀ (st : GameSnapshot) (d : RotDir),
      st.gameState ≠ GameState.active ∨ st.isPaused = true →
      rotatePuyoState st d = st) ∧
    (∀ (st : GameSnapshot) (p : PuyoPair) (d : MoveDir) (fresh : PuyoPair),
      st.currentPuyo = some p → d ≠ MoveDir.down →
      isValidMove st.grid (movedPiece p d) = false →
      movePuyoState st d fresh = some st) ∧
    (∀ (st : GameSnapshot) (p : PuyoPair) (d : RotDir),
      st.currentPuyo = some p →
      isValidMove st.grid (rotatedPiece p d) = false →
      rotatePuyoState st d = st) := by
  refine ⟨?_, ?_, ?_, ?_⟩
  · intro st d fresh h
    unfold movePuyoState
    cases hc : st.currentPuyo with
    | none => rfl
    | some p => exact if_pos h
  · intro st d h
    unfold rotatePuyoState
    cases hc : st.currentPuyo with
    | none => rfl
    | some p => exact if_pos h
  · intro st p d fresh hc hd hv
    unfold movePuyoState
    rw [hc]
    by_cases hg : st.gameState ≠ GameState.active ∨ st.isPaused = true
    · exact if_pos hg
    · simp only [if_neg hg, hv, Bool.false_eq_true, if_false, if_neg hd]
  · intro st p d hc hv
    unfold rotatePuyoState
    rw [hc]
    by_cases hg : st.gameState ≠ GameState.active ∨ st.isPaused = true
    · exact if_pos hg
    · simp only [if_neg hg, hv, Bool.false_eq_true, if_false]

/-- A snapshot used to witness the silently-ignored cases of C9: a piece
sitting at the left wall while paused. -/
def exPausedSnapshot : GameSnapshot :=
  ⟨createEmptyGrid, GameState.active, 0,
    some ⟨some PuyoColor.red, some PuyoColor.blue, 0, 5, 0⟩, none, 0, true⟩

/-- A snapshot with a piece at the left wall, active and unpaused. -/
def exWallSnapshot : GameSnapshot :=
  ⟨createEmptyGrid, GameState.active, 0,
    some ⟨some PuyoColor.red, some PuyoColor.blue, 0, 5, 0⟩, none, 0, false⟩

/-- Witness for C9: paused requests and an invalid left move or rotation
at the wall all leave the snapshot unchanged. -/
theorem claim_C9_witness :
    ((exPausedSnapshot.gameState ≠ GameState.active ∨ exPausedSnapshot.isPaused = true) ∧
      movePuyoState exPausedSnapshot MoveDir.left freshPair = some exPausedSnapshot ∧
      rotatePuyoState exPausedSnapshot RotDir.right = exPausedSnapshot) ∧
    (exWallSnapshot.currentPuyo = some ⟨some PuyoColor.red, some PuyoColor.blue, 0, 5, 0⟩ ∧
      isValidMove exWallSnapshot.grid
        (movedPiece ⟨some PuyoColor.red, some PuyoColor.blue, 0, 5, 0⟩ MoveDir.left) = false ∧
      movePuyoState exWallSnapshot MoveDir.left freshPair = some exWallSnapshot ∧
      isValidMove exWallSnapshot.grid
        (rotatedPiece ⟨some PuyoColor.red, some PuyoColor.blue, 0, 5, 0⟩ RotDir.left) = false ∧
      rotatePuyoState exWallSnapshot RotDir.left = exWallSnapshot) :=
  ⟨⟨Or.inr (by decide),
    claim_C9_noop_requests.1 exPausedSnapshot MoveDir.left freshPair (Or.inr (by decide)),
    claim_C9_noop_requests.2.1 exPausedSnapshot RotDir.right (Or.inr (by decide))⟩,
   ⟨by decide, by decide,
    claim_C9_noop_requests.2.2.1 exWallSnapshot
      ⟨some PuyoColor.red, some PuyoColor.blue, 0, 5, 0⟩ MoveDir.left freshPair
      (by decide) (by decide) (by decide),
    by decide,
    claim_C9_noop_requests.2.2.2 exWallSnapshot
      ⟨some PuyoColor.red, some PuyoColor.blue, 0, 5, 0⟩ RotDir.left
      (by decide) (by decide)⟩⟩

theorem secondPos_ne_anchor (x y r : Int) (h0 : 0 ≤ r) (h4 : r < 4) :
    getSecondPuyoPosition x y r ≠ (x, y) := by
  have hr : r = 0 ∨ r = 1 ∨ r = 2 ∨ r = 3 := by omega
  rcases hr with rfl | rfl | rfl | rfl <;>
    simp [getSecondPuyoPosition, Prod.ext_iff] <;> omega

/-- Claim C4: when a down request is rejected by the validator, the piece
is committed into the grid at its current (pre-move) position, not the
rejected target: the current anchor receives `color1`, the computed
second cell receives `color2`, every other cell is untouched, headline
state flows through `checkForMatches`, and the falling piece is replaced
from the next-piece queue. -/
theorem claim_C4_landing_commit (st : GameSnapshot) (p fresh : PuyoPair)
    (hstate : st.gameState = GameState.active) (hpause : st.isPaused = false)
    (hcur : st.currentPuyo = some p)
    (hr0 : 0 ≤ p.rotation) (hr4 : p.rotation < 4)
    (hinv : isValidMove st.grid (movedPiece p MoveDir.down) = false)
    (hanchor : inB (p.x, p.y))
    (hsecond : inB (getSecondPuyoPosition p.x p.y p.rotation)) :
    ∃ gP : Grid,
      placePuyoState st fresh =
        some (checkForMatchesState { st with currentPuyo := none } gP fresh) ∧
      movePuyoState st MoveDir.down fresh = placePuyoState st fresh ∧
      cellAt gP (p.x, p.y) = p.color1 ∧
      cellAt gP (getSecondPuyoPosition p.x p.y p.rotation) = p.color2 ∧
      (∀ q : Pos, q ≠ (p.x, p.y) → q ≠ getSecondPuyoPosition p.x p.y p.rotation →
        cellAt gP q = cellAt st.grid q) ∧
      (checkForMatchesState { st with currentPuyo := none } gP fresh).currentPuyo =
        st.nextPuyo := by
  obtain ⟨hx0, hx6, hy0, hy12⟩ := hanchor
  obtain ⟨hsx0, hsx6, hsy0, hsy12⟩ := hsecond
  have hne := secondPos_ne_anchor p.x p.y p.rotation hr0 hr4
  refine ⟨setCell (setCell st.grid p.y p.x p.color1)
    (getSecondPuyoPosition p.x p.y p.rotation).2
    (getSecondPuyoPosition p.x p.y p.rotation).1 p.color2, ?_, ?_, ?_, ?_, ?_, ?_⟩
  · unfold placePuyoState
    rw [hcur]
    have e1 : setCellUnchecked st.grid p.y p.x p.color1 =
        some (setCell st.grid p.y p.x p.color1) := if_pos ⟨hy0, hy12⟩
    have e2 : setCellUnchecked (setCell st.grid p.y p.x p.color1)
        (getSecondPuyoPosition p.x p.y p.rotation).2
        (getSecondPuyoPosition p.x p.y p.rotation).1 p.color2 =
        some (setCell (setCell st.grid p.y p.x p.color1)
          (getSecondPuyoPosition p.x p.y p.rotation).2
          (getSecondPuyoPosition p.x p.y p.rotation).1 p.color2) := if_pos ⟨hsy0, hsy12⟩
    simp only [e1, e2]
  · have hg : ¬(st.gameState ≠ GameState.active ∨ st.isPaused = true) := by
      rw [hstate, hpause]
      simp
    unfold movePuyoState
    rw [hcur]
    simp only [if_neg hg, hinv, Bool.false_eq_true, if_false, if_true]
  · have hne2 : p.y ≠ (getSecondPuyoPosition p.x p.y p.rotation).2 ∨
        p.x ≠ (getSecondPuyoPosition p.x p.y p.rotation).1 := by
      by_contra hcon
      push_neg at hcon
      exact hne (Prod.ext hcon.2.symm hcon.1.symm)
    show getCell _ p.y p.x = p.color1
    rw [getCell_setCell_ne _ _ _ _ _ _ hne2,
      getCell_setCell_same _ _ _ _ ⟨hy0, hy12, hx0, hx6⟩]
  · show getCell _ _ _ = p.color2
    rw [getCell_setCell_same _ _ _ _ ⟨hsy0, hsy12, hsx0, hsx6⟩]
  · intro q hq1 hq2
    have hq1n : q.2 ≠ p.y ∨ q.1 ≠ p.x := by
      by_contra hcon
      push_neg at hcon
      exact hq1 (Prod.ext hcon.2 hcon.1)
    have hq2n : q.2 ≠ (getSecondPuyoPosition p.x p.y p.rotation).2 ∨
        q.1 ≠ (getSecondPuyoPosition p.x p.y p.rotation).1 := by
      by_contra hcon
      push_neg at hcon
      exact hq2 (Prod.ext hcon.2 hcon.1)
    show getCell _ q.2 q.1 = getCell st.grid q.2 q.1
    rw [getCell_setCell_ne _ _ _ _ _ _ hq2n, getCell_setCell_ne _ _ _ _ _ _ hq1n]
  · rfl

/-- A landed-on stack for C4: a single red at position (2,6). -/
def exLandGrid : Grid := fun y x =>
  if y = 6 ∧ x = 2 then some PuyoColor.red else none

/-- The falling pair of the spec's landing example: anchor (2,5),
orientation 0, so second cell (2,4). -/
def exLandPiece : PuyoPair := ⟨some PuyoColor.red, some PuyoColor.blue, 2, 5, 0⟩

/-- Snapshot for the landing example. -/
def exLandSnapshot : GameSnapshot :=
  ⟨exLandGrid, GameState.active, 0, some exLandPiece, some freshPair, 0, false⟩

/-- Witness for C4 at the spec's example: piece at (2,5)/(2,4) over an
occupied (2,6). -/
theorem claim_C4_witness :
    isValidMove exLandSnapshot.grid (movedPiece exLandPiece MoveDir.down) = false ∧
    (∃ gP : Grid,
      placePuyoState exLandSnapshot freshPair =
        some (checkForMatchesState { exLandSnapshot with currentPuyo := none } gP freshPair) ∧
      movePuyoState exLandSnapshot MoveDir.down freshPair =
        placePuyoState exLandSnapshot freshPair ∧
      cellAt gP (exLandPiece.x, exLandPiece.y) = exLandPiece.color1 ∧
      cellAt gP (getSecondPuyoPosition exLandPiece.x exLandPiece.y exLandPiece.rotation) =
        exLandPiece.color2 ∧
      (∀ q : Pos, q ≠ (exLandPiece.x, exLandPiece.y) →
        q ≠ getSecondPuyoPosition exLandPiece.x exLandPiece.y exLandPiece.rotation →
        cellAt gP q = cellAt exLandSnapshot.grid q) ∧
      (checkForMatchesState { exLandSnapshot with currentPuyo := none } gP
        freshPair).currentPuyo = exLandSnapshot.nextPuyo) :=
  ⟨by decide,
    claim_C4_landing_commit exLandSnapshot exLandPiece freshPair rfl rfl rfl
      (by decide) (by decide) (by decide) (by decide) (by decide)⟩

/-- The stack that blocks the spawn position for C10: a red at (2,1). -/
def exSpawnBlockGrid : Grid := fun y x =>
  if y = 1 ∧ x = 2 then some PuyoColor.red else none

/-- A freshly spawned pair: anchor (2,0), orientation 0, so its computed
second cell is (2,-1), outside the grid. -/
def exSpawnPiece : PuyoPair := ⟨some PuyoColor.red, some PuyoColor.blue, 2, 0, 0⟩

/-- Snapshot in which the spawned piece's down move is rejected. -/
def exSpawnSnapshot : GameSnapshot :=
  ⟨exSpawnBlockGrid, GameState.active, 0, some exSpawnPiece, some freshPair, 0, false⟩

/-- Claim C10 is false of the code: a piece landing at row 0 with
orientation 0 has its computed second cell at row -1, and the commit
writes `newGrid[-1][2]`, which in the source throws a TypeError
(modelled as `none`): the landing path does not stay in bounds. -/
theorem claim_C10_out_of_bounds_commit :
    isValidMove exSpawnBlockGrid (movedPiece exSpawnPiece MoveDir.down) = false ∧
    getSecondPuyoPosition exSpawnPiece.x exSpawnPiece.y exSpawnPiece.rotation = (2, -1) ∧
    placePuyoState exSpawnSnapshot freshPair = none ∧
    movePuyoState exSpawnSnapshot MoveDir.down freshPair = none := by
  refine ⟨by decide, by decide, by decide, by decide⟩

/-- Counterexample to C4 as universally stated: for the freshly spawned
piece over a blocked cell the preconditions of the claim hold and the
down request is rejected, yet the landing produces no successor state at
all (the commit faults on the out-of-bounds second cell), so no grid
cells receive the piece's colors and the piece is not replaced. -/
theorem claim_C4_counterexample :
    exSpawnSnapshot.gameState = GameState.active ∧
    exSpawnSnapshot.isPaused = false ∧
    exSpawnSnapshot.currentPuyo = some exSpawnPiece ∧
    isValidMove exSpawnSnapshot.grid (movedPiece exSpawnPiece MoveDir.down) = false ∧
    movePuyoState exSpawnSnapshot MoveDir.down freshPair = none :=
  ⟨rfl, rfl, rfl, by decide, by decide⟩
